import Mathlib

/-!
Shallow embedding of the chat client (groq_client.py, app.py, chat_db.py):
the streaming chunker, the interactive stream consumer, and the message
store.  Strings are modelled with list-based helpers so that every
definition evaluates inside the kernel; machine-level details (network,
sessions, real timestamps) are made explicit parameters.
-/

set_option maxRecDepth 100000

namespace ChatApp

/-- Python str.lower (ASCII case folding, as in role.lower()). -/
def pyLower (s : String) : String := String.mk (s.data.map Char.toLower)

/-- Word counter matching len(s.split()): counts maximal runs of
non-whitespace characters.  The boolean argument records whether the scan
is currently inside a word. -/
def wordCountAux : List Char → Bool → Nat
  | [], _ => 0
  | c :: cs, inWord =>
    if c.isWhitespace then wordCountAux cs false
    else (if inWord then 0 else 1) + wordCountAux cs true

/-- len(s.split()) from Python: the number of whitespace-separated words. -/
def wordCount (s : String) : Nat := wordCountAux s.data false

/-- Python "".join(parts). -/
def pyJoin (parts : List String) : String := parts.foldr (· ++ ·) ""

/-- One yielded dictionary of stream_response: keys chunk, finished,
usage (tokens = total_tokens = len(chunk) // 4, kept as one field) and
error. -/
structure ChunkEvent where
  chunk : String
  finished : Bool
  tokens : Nat
  error : Option String
  deriving Repr, DecidableEq

/-- The final-buffer event of stream_response (lines 130-139 of
groq_client.py). -/
def finalEvent (txt : String) : ChunkEvent :=
  { chunk := txt, finished := true, tokens := txt.length / 4, error := none }

/-- The terminal error event of stream_response (lines 144-153 of
groq_client.py). -/
def errorEvent (msg : String) : ChunkEvent :=
  { chunk := "", finished := true, tokens := 0,
    error := some ("Error en la generación: " ++ msg) }

/-- The for-loop of stream_response over the delivered content fragments
(groq_client.py lines 102-127).  State: remaining fragments, buffer,
word_count.  Returns the yielded flush events, the leftover buffer, and
whether the loop ended through the callback-break (in which case the
buffer was just reset, so it is empty). -/
def streamCore (chunkSize : Nat) (onChunk : Option (String → Bool → Bool)) :
    List String → List String → Nat → List ChunkEvent × List String × Bool
  | [], buf, _ => ([], buf, false)
  | c :: rest, buf, wc =>
    let buf1 := buf ++ [c]
    let wc1 := wc + wordCount c
    if chunkSize ≤ wc1 then
      let joined := pyJoin buf1
      let ev : ChunkEvent :=
        { chunk := joined, finished := false, tokens := joined.length / 4,
          error := none }
      let cont := match onChunk with
        | some cb => cb joined false
        | none => true
      if cont then
        let r := streamCore chunkSize onChunk rest [] 0
        (ev :: r.1, r.2.1, r.2.2)
      else
        ([ev], [], true)
    else
      streamCore chunkSize onChunk rest buf1 wc1

/-- The event sequence yielded by stream_response.  fragments are the
delta.content strings delivered by the API before it either completes
(apiErr = none) or raises (apiErr = some msg).  If the callback broke the
loop the remaining stream is never consumed, so neither the final-buffer
event nor the error event is produced. -/
def stream_response_events (chunkSize : Nat)
    (onChunk : Option (String → Bool → Bool)) (fragments : List String)
    (apiErr : Option String) : List ChunkEvent :=
  let r := streamCore chunkSize onChunk fragments [] 0
  if r.2.2 then r.1
  else
    match apiErr with
    | some msg => r.1 ++ [errorEvent msg]
    | none => if r.2.1 = [] then r.1 else r.1 ++ [finalEvent (pyJoin r.2.1)]

/-- A chat message as sent to the API (role/content dictionary). -/
structure Msg where
  role : String
  content : String
  deriving Repr, DecidableEq

/-- SYSTEM_PROMPT of groq_client.py. -/
def SYSTEM_PROMPT : Msg :=
  { role := "system",
    content := "Eres el CEO de una multinacional experta en Python. Tu misión es guiar a un desarrollador junior con orientación profesional: arquitectura de software, principios SOLID, buenas prácticas, Clean Architecture, CI/CD, testing. Debes responder con claridad, profesionalidad y honestidad. Si no sabes algo, debes decir explícitamente \"No tengo información al respecto\" y no inventes respuestas. Tus respuestas deben incluir ejemplos de código real, referencias a documentación oficial, y seguir estilos de código Python modernos (PEP 8, tipado, docstrings)." }

/-- Step 1 of the windowing policy (groq_client.py lines 76-77): prepend
SYSTEM_PROMPT when no message has role system. -/
def withSystem (messages : List Msg) : List Msg :=
  if messages.any (fun m => m.role == "system") then messages
  else SYSTEM_PROMPT :: messages

/-- The outgoing message list of stream_response (groq_client.py lines
76-88): prepend the system prompt if needed, then, when more than 21
messages remain, keep all system messages plus the last 20 non-system
messages. -/
def prepareMessages (messages : List Msg) : List Msg :=
  let msgs := withSystem messages
  if 21 < msgs.length then
    let systemMsgs := msgs.filter (fun m => m.role == "system")
    let nonSystemMsgs := msgs.filter (fun m => m.role != "system")
    let recentMsgs := nonSystemMsgs.drop (nonSystemMsgs.length - 20)
    systemMsgs ++ recentMsgs
  else msgs

/-- stream_response as a whole: the outgoing request messages and the
yielded events. -/
def stream_response (messages : List Msg) (chunkSize : Nat)
    (onChunk : Option (String → Bool → Bool)) (fragments : List String)
    (apiErr : Option String) : List Msg × List ChunkEvent :=
  (prepareMessages messages, stream_response_events chunkSize onChunk fragments apiErr)

/-! ### Chunk Consumer: process_stream of app.py -/

/-- CONFIG of app.py with the values fixed in the source. -/
def CONFIG_max_chunk_size : Nat := 30

/-- CONFIG of app.py: pause for confirmation on long outputs. -/
def CONFIG_confirm_continue : Bool := true

/-- Outcome of process_stream: the assembled response text and the two
metadata keys the ask command inspects.  interrupted is set only on the
KeyboardInterrupt path and errorMeta only when process_stream itself
raises (app.py lines 151-156); the deterministic run modelled here ends
on the normal return of line 145, where neither key is present. -/
structure ProcResult where
  response : String
  interrupted : Bool
  errorMeta : Option String
  deriving Repr, DecidableEq

/-- The chunk-consuming for-loop of process_stream (app.py lines
111-139).  answers are the replies typed at the confirmation pause
(input() is modelled as returning the next entry, or the empty string
when exhausted).  Accumulators full and cur model full_response and
current_chunk.  Events with an error set make the loop break before
appending; a pause answer whose lowercase form is q breaks the loop. -/
def processLoop (maxCS : Nat) (confirm : Bool) :
    List ChunkEvent → List String → List String → List String → List String
  | [], _, full, _ => full
  | ev :: rest, answers, full, cur =>
    if ev.error.isSome then full
    else
      let cur1 := cur ++ [ev.chunk]
      let full1 := full ++ [ev.chunk]
      if maxCS * 3 < wordCount (pyJoin cur1) ∧ confirm = true ∧ ev.finished = false then
        let a := answers.headD ""
        if pyLower a = "q" then full1
        else processLoop maxCS confirm rest answers.tail full1 []
      else
        processLoop maxCS confirm rest answers full1 cur1

/-- process_stream of app.py on a given event sequence and pause
answers: joins the accumulated chunks and returns the metadata of the
normal-return path (no interrupted key, no error key). -/
def process_stream (events : List ChunkEvent) (answers : List String) : ProcResult :=
  { response := pyJoin (processLoop CONFIG_max_chunk_size CONFIG_confirm_continue
      events answers [] []),
    interrupted := false, errorMeta := none }

/-- The persistence decision of the ask command (app.py line 253): the
assistant response is stored unless the metadata carries interrupted or
error. -/
def ask_persists (r : ProcResult) : Bool :=
  !r.interrupted && r.errorMeta.isNone

/-! ### Message Store: chat_db.py -/

/-- A persisted row of the messages table. -/
structure Row where
  id : Nat
  role : String
  content : String
  created_at : Nat
  deriving Repr, DecidableEq

/-- The two error kinds of add_message: ValueError on validation and
SQLAlchemyError from storage. -/
inductive DbError where
  | valueError (msg : String)
  | storageError (msg : String)
  deriving Repr, DecidableEq

/-- add_message of chat_db.py (lines 83-117): validates role and content
non-empty (ValueError otherwise, nothing stored), then appends a row
whose role is lowercased.  The store assigns newId and timestamp t; the
result pairs the returned record (or the validation error) with the
post-state of the table. -/
def add_message (role content : String) (newId t : Nat) (db : List Row) :
    Except DbError Row × List Row :=
  if role = "" then
    (.error (.valueError "El rol es requerido y debe ser un string"), db)
  else if content = "" then
    (.error (.valueError "El contenido es requerido y debe ser un string"), db)
  else
    let m : Row := { id := newId, role := pyLower role, content := content,
                     created_at := t }
    (.ok m, db ++ [m])

/-- The fixed recognizable content marker of a conversation separator
(chat_db.py line 151). -/
def sepMarker : String := "--- NUEVA CONVERSACIÓN"

/-- create_new_conversation of chat_db.py (lines 304-331): appends a
system-role separator row whose content embeds the formatted timestamp
string ts. -/
def create_new_conversation (ts : String) (newId t : Nat) (db : List Row) : List Row :=
  db ++ [{ id := newId, role := "system",
           content := "--- NUEVA CONVERSACIÓN INICIADA: " ++ ts ++ " ---",
           created_at := t }]

/-- clear_chat_history of chat_db.py: deletes every row. -/
def clear_chat_history (_db : List Row) : List Row := []

/-- The separator test of get_all_messages: role system and content
matching LIKE with the marker as a string head. -/
def isSeparator (r : Row) : Bool :=
  r.role == "system" && sepMarker.data.isPrefixOf r.content.data

/-- The ORDER BY created_at DESC relation. -/
def timeDesc (a b : Row) : Prop := b.created_at ≤ a.created_at

instance : DecidableRel timeDesc := fun _ _ => Nat.decLe _ _

instance : IsTotal Row timeDesc :=
  ⟨fun a b => Nat.le_total b.created_at a.created_at⟩

instance : IsTrans Row timeDesc :=
  ⟨fun _ _ _ h1 h2 => Nat.le_trans h2 h1⟩

/-- ORDER BY created_at DESC over a row set (ties left unspecified by
SQL; the theorems below only use it under distinct timestamps). -/
def sortByTimeDesc (rows : List Row) : List Row :=
  List.insertionSort timeDesc rows

/-- The separator lookup of get_all_messages (chat_db.py lines 148-157):
the id of the row first in descending timestamp order among separators. -/
def lastSeparatorId (rows : List Row) : Option Nat :=
  ((sortByTimeDesc (rows.filter isSeparator)).head?).map (·.id)

/-- Case-insensitive substring test modelling content ILIKE with the
search text wrapped in wildcards. -/
def strContains (hay needle : String) : Bool :=
  (List.range (hay.data.length + 1)).any
    (fun i => ((hay.data.drop i).take needle.data.length) == needle.data)

/-- The separator scoping step of get_all_messages (chat_db.py lines
144-164): restrict to rows with id at least the latest separator id,
skipped when no separator exists or its id is zero (Python
truthiness). -/
def sepScope (current_conversation_only : Bool) (rows : List Row) : List Row :=
  match (if current_conversation_only then lastSeparatorId rows else none) with
  | some i => if i ≠ 0 then rows.filter (fun r => decide (i ≤ r.id)) else rows
  | none => rows

/-- The optional case-insensitive search step of get_all_messages
(chat_db.py lines 167-168), skipped on an empty search text. -/
def searchScope (search : Option String) (q : List Row) : List Row :=
  match search with
  | some s => if s ≠ "" then
      q.filter (fun r => strContains (pyLower r.content) (pyLower s))
    else q
  | none => q

/-- The optional role filter step of get_all_messages (chat_db.py lines
169-170): compares stored roles with the lowercased argument, skipped on
an empty role. -/
def roleScope (role : Option String) (q : List Row) : List Row :=
  match role with
  | some ro => if ro ≠ "" then q.filter (fun r => r.role == pyLower ro) else q
  | none => q

/-- The filter pipeline of get_all_messages: separator scoping, then
search, then role.  Ordering and pagination are applied after
counting. -/
def filteredMessages (search role : Option String)
    (current_conversation_only : Bool) (rows : List Row) : List Row :=
  roleScope role (searchScope search (sepScope current_conversation_only rows))

/-- The effective page size of get_all_messages (chat_db.py line 179):
the given limit when positive, 100 otherwise. -/
def effLimit (limit : Option Int) : Nat :=
  match limit with
  | some l => if 0 < l then l.toNat else 100
  | none => 100

/-- get_all_messages of chat_db.py (lines 120-197): filters, counts the
total before pagination, orders by timestamp descending, applies
offset and limit (100 when the limit is missing or non-positive), and
returns the page with the total. -/
def get_all_messages (limit : Option Int) (offset : Nat)
    (search role : Option String) (current_conversation_only : Bool)
    (rows : List Row) : List Row × Nat :=
  (((sortByTimeDesc (filteredMessages search role current_conversation_only
      rows)).drop offset).take (effLimit limit),
   (filteredMessages search role current_conversation_only rows).length)

/-- The lowercase-role invariant of the store: every persisted row has a
role fixed by ASCII lowercasing. -/
def RolesLower (db : List Row) : Prop := ∀ r ∈ db, pyLower r.role = r.role

/-! ### Concrete sample data used by the executable checks -/

/-- A callback that keeps streaming only on the chunk text a. -/
def cbStopAfterA : String → Bool → Bool := fun s _ => s == "a"

/-- A fragment of 91 one-letter words, long enough to trigger the
confirmation pause of process_stream. -/
def bigFrag : String := pyJoin (List.replicate 91 "a ")

/-- A single big non-final chunk event, as stream_response yields it for
the fragment bigFrag. -/
def bigEv : ChunkEvent :=
  { chunk := bigFrag, finished := false, tokens := 45, error := none }

/-- Sample row appended before the separator. -/
def rowBefore : Row := { id := 1, role := "user", content := "hello", created_at := 1 }

/-- Sample conversation-separator row. -/
def rowSep : Row :=
  { id := 2, role := "system",
    content := "--- NUEVA CONVERSACIÓN INICIADA: t ---", created_at := 2 }

/-- Sample row appended after the separator. -/
def rowAfter : Row := { id := 3, role := "user", content := "hi", created_at := 3 }

/-- 1 system message followed by 25 user messages, for the windowing
check. -/
def msgs26 : List Msg :=
  { role := "system", content := "s" } ::
    List.replicate 25 { role := "user", content := "u" }

/-! ### General lemmas about the embedding -/

theorem pyJoin_nil : pyJoin [] = "" := rfl

theorem pyJoin_cons (a : String) (l : List String) :
    pyJoin (a :: l) = a ++ pyJoin l := rfl

theorem pyJoin_append (l1 l2 : List String) :
    pyJoin (l1 ++ l2) = pyJoin l1 ++ pyJoin l2 := by
  induction l1 with
  | nil => simp [pyJoin]
  | cons a l ih => simp only [List.cons_append, pyJoin_cons, ih, String.append_assoc]

theorem pyJoin_singleton (a : String) : pyJoin [a] = a := by
  simp [pyJoin]

/-- With no callback the streaming loop never breaks. -/
theorem streamCore_none_not_stopped (cs : Nat) :
    ∀ (frags buf : List String) (wc : Nat),
      (streamCore cs none frags buf wc).2.2 = false := by
  intro frags
  induction frags with
  | nil => intro buf wc; rfl
  | cons c rest ih =>
    intro buf wc
    simp only [streamCore]
    split
    · exact ih [] 0
    · exact ih _ _

/-- Every event yielded inside the loop is a flush event: not final and
error-free. -/
theorem streamCore_events_flush (cs : Nat) (cb : Option (String → Bool → Bool)) :
    ∀ (frags buf : List String) (wc : Nat) (ev : ChunkEvent),
      ev ∈ (streamCore cs cb frags buf wc).1 →
      ev.finished = false ∧ ev.error = none := by
  intro frags
  induction frags with
  | nil => intro buf wc ev h; simp [streamCore] at h
  | cons c rest ih =>
    intro buf wc ev h
    simp only [streamCore] at h
    split at h
    · split at h
      · rcases List.mem_cons.mp h with h | h
        · subst h; exact ⟨rfl, rfl⟩
        · exact ih [] 0 ev h
      · rcases List.mem_cons.mp h with h | h
        · subst h; exact ⟨rfl, rfl⟩
        · simp at h
    · exact ih _ _ ev h

/-- Concatenation invariant of the loop: emitted chunks plus the leftover
buffer reproduce the initial buffer plus all fragments. -/
theorem streamCore_roundtrip (cs : Nat) :
    ∀ (frags buf : List String) (wc : Nat),
      pyJoin (((streamCore cs none frags buf wc).1).map (fun e => e.chunk))
          ++ pyJoin (streamCore cs none frags buf wc).2.1
        = pyJoin buf ++ pyJoin frags := by
  intro frags
  induction frags with
  | nil => intro buf wc; simp [streamCore, pyJoin]
  | cons c rest ih =>
    intro buf wc
    simp only [streamCore]
    split
    · have h := ih [] 0
      simp only [if_true, List.map_cons, pyJoin_cons, pyJoin_nil, String.empty_append] at h ⊢
      rw [String.append_assoc, h, pyJoin_append, pyJoin_singleton, String.append_assoc]
    · have h := ih (buf ++ [c]) (wc + wordCount c)
      rw [h, pyJoin_append, pyJoin_singleton, pyJoin_cons, String.append_assoc]

/-- Flush counting for one-word fragments: starting below the threshold,
processing n fragments emits (wc + n) / cs flush events and leaves
(wc + n) % cs fragments buffered. -/
theorem streamCore_count_one_word (cs : Nat) (hcs : 0 < cs) :
    ∀ (frags buf : List String) (wc : Nat),
      (∀ f ∈ frags, wordCount f = 1) → wc < cs → buf.length = wc →
      (streamCore cs none frags buf wc).1.length = (wc + frags.length) / cs ∧
      (streamCore cs none frags buf wc).2.1.length = (wc + frags.length) % cs := by
  intro frags
  induction frags with
  | nil =>
    intro buf wc hall hwc hbuf
    simp [streamCore, Nat.div_eq_of_lt hwc, Nat.mod_eq_of_lt hwc, hbuf]
  | cons c rest ih =>
    intro buf wc hall hwc hbuf
    have hc : wordCount c = 1 := hall c (List.mem_cons_self c rest)
    have hrest : ∀ f ∈ rest, wordCount f = 1 :=
      fun f hf => hall f (List.mem_cons_of_mem _ hf)
    simp only [streamCore, hc]
    by_cases hflush : cs ≤ wc + 1
    · rw [if_pos hflush]
      have h := ih [] 0 hrest hcs rfl
      have e1 : wc + (rest.length + 1) = rest.length + cs := by omega
      simp only [if_true, List.length_cons, Nat.zero_add] at h ⊢
      rw [e1, Nat.add_div_right _ hcs, Nat.add_mod_right]
      exact ⟨by rw [h.1], h.2⟩
    · rw [if_neg hflush]
      have h := ih (buf ++ [c]) (wc + 1) hrest (by omega)
        (by simp [hbuf])
      have e1 : wc + 1 + rest.length = wc + (rest.length + 1) := by omega
      rw [e1] at h
      exact h

/-- On a complete, error-free, uninterrupted run the yielded sequence is
the flush events followed by the final-buffer event exactly when the
leftover buffer is non-empty. -/
theorem stream_response_events_none (cs : Nat) (frags : List String) :
    stream_response_events cs none frags none =
      (streamCore cs none frags [] 0).1
        ++ (if (streamCore cs none frags [] 0).2.1 = [] then []
            else [finalEvent (pyJoin (streamCore cs none frags [] 0).2.1)]) := by
  simp only [stream_response_events, streamCore_none_not_stopped, Bool.false_eq_true,
    if_false]
  split <;> simp [*]

/-! ### Claim C1 -/

/-- C1 counterexample: the single fragment a at chunk size 1 flushes on
arrival, the stream then completes without error with an empty buffer,
and stream_response yields no event with finished = true at all — the
claimed unconditional final event is missing (groq_client.py line 130
guards it with the buffer truthiness test). -/
theorem C1_counterexample :
    stream_response_events 1 none ["a"] none =
      [{ chunk := "a", finished := false, tokens := 0, error := none }] := by
  decide

/-- C1 (amended): on a run that completes without API error and without
a callback break, the yielded sequence is the flush events — all with
finished = false and a null error — followed by one final event exactly
when the buffer still holds fragments; that final event carries the
joined leftover buffer (an empty text is possible), has finished = true
and a null error, and nothing follows it.  When the buffer is empty at
completion no final event is emitted. -/
theorem C1_final_chunk_amended (cs : Nat) (frags : List String) :
    stream_response_events cs none frags none =
      (streamCore cs none frags [] 0).1
        ++ (if (streamCore cs none frags [] 0).2.1 = [] then []
            else [finalEvent (pyJoin (streamCore cs none frags [] 0).2.1)])
    ∧ (∀ ev ∈ (streamCore cs none frags [] 0).1, ev.finished = false ∧ ev.error = none)
    ∧ ∀ txt, (finalEvent txt).finished = true ∧ (finalEvent txt).error = none :=
  ⟨stream_response_events_none cs frags,
   fun ev hev => streamCore_events_flush cs none frags [] 0 ev hev,
   fun _ => ⟨rfl, rfl⟩⟩

/-- C1 amended claim evaluated on a concrete run with a non-empty
leftover buffer. -/
theorem C1_final_chunk_amended_witness :
    stream_response_events 1 none ["a", "b"] none =
      (streamCore 1 none ["a", "b"] [] 0).1
        ++ (if (streamCore 1 none ["a", "b"] [] 0).2.1 = [] then []
            else [finalEvent (pyJoin (streamCore 1 none ["a", "b"] [] 0).2.1)]) :=
  (C1_final_chunk_amended 1 ["a", "b"]).1

/-! ### Claim C2 -/

/-- C2 counterexample: the single fragment with two words at chunk size
1 is flushed as one single non-final chunk, not the claimed
ceil(2 / 1) = 2 non-final chunks, and no final event follows it. -/
theorem C2_counterexample :
    wordCount (pyJoin ["a b"]) = 2
    ∧ ((stream_response_events 1 none ["a b"] none).filter
        (fun e => !e.finished)).length = 1
    ∧ ((stream_response_events 1 none ["a b"] none).filter
        (fun e => e.finished)).length = 0 := by
  decide

/-- C2 (amended): concatenating the texts of all yielded events in order
always reproduces the concatenated input; and when every fragment holds
exactly one word (so W is the fragment count), the streamer emits
floor(W / C) non-final chunks, followed by one final chunk exactly when
C does not divide W. -/
theorem C2_roundtrip_amended (cs : Nat) (frags : List String) :
    pyJoin ((stream_response_events cs none frags none).map (fun e => e.chunk))
        = pyJoin frags
    ∧ (0 < cs → (∀ f ∈ frags, wordCount f = 1) →
        ((stream_response_events cs none frags none).filter
            (fun e => !e.finished)).length = frags.length / cs
        ∧ ((stream_response_events cs none frags none).filter
            (fun e => e.finished)).length
          = if frags.length % cs = 0 then 0 else 1) := by
  have hevs := stream_response_events_none cs frags
  have hrt := streamCore_roundtrip cs frags [] 0
  have hflush := streamCore_events_flush cs none frags [] 0
  simp only [pyJoin_nil, String.empty_append] at hrt
  constructor
  · rw [hevs, List.map_append, pyJoin_append]
    by_cases hbuf : (streamCore cs none frags [] 0).2.1 = []
    · rw [if_pos hbuf]
      rw [hbuf] at hrt
      simpa [pyJoin] using hrt
    · rw [if_neg hbuf]
      simpa [pyJoin] using hrt
  · intro hcs hone
    have hcount := streamCore_count_one_word cs hcs frags [] 0 hone hcs rfl
    simp only [Nat.zero_add] at hcount
    have hcore1 : ((streamCore cs none frags [] 0).1.filter
        (fun e => !e.finished)) = (streamCore cs none frags [] 0).1 :=
      List.filter_eq_self.mpr (fun ev hev => by
        rw [(hflush ev hev).1]; rfl)
    have hcore2 : ((streamCore cs none frags [] 0).1.filter
        (fun e => e.finished)) = [] :=
      List.filter_eq_nil_iff.mpr (fun ev hev => by
        simp [(hflush ev hev).1])
    rw [hevs, List.filter_append, List.filter_append, hcore1, hcore2]
    by_cases hbuf : (streamCore cs none frags [] 0).2.1 = []
    · have hmod : frags.length % cs = 0 := by
        rw [← hcount.2, hbuf]; rfl
      rw [if_pos hbuf]
      simp [hmod, hcount.1]
    · have hmod : frags.length % cs ≠ 0 := by
        rw [← hcount.2]
        simpa [List.length_eq_zero] using hbuf
      rw [if_neg hbuf]
      simp [hmod, hcount.1, finalEvent]

/-- C2 amended claim evaluated on three one-word fragments at chunk size
2: one non-final chunk, then a final one. -/
theorem C2_roundtrip_amended_witness :
    ((stream_response_events 2 none ["a ", "b ", "c "] none).filter
        (fun e => !e.finished)).length = 3 / 2
    ∧ ((stream_response_events 2 none ["a ", "b ", "c "] none).filter
        (fun e => e.finished)).length = if 3 % 2 = 0 then 0 else 1 :=
  (C2_roundtrip_amended 2 ["a ", "b ", "c "]).2 (by decide) (by decide)

/-! ### Claim C5 -/

/-- C5: when the underlying API call raises after delivering the
fragments (and the callback did not already break the loop), the yielded
sequence ends with exactly one terminal event: its error is the non-null
formatted message, its finished flag is true, every earlier event is an
error-free flush event, and no event follows it.  The embedding is a
total function, mirroring that the generator converts the exception
instead of propagating it. -/
theorem C5_error_event (cs : Nat) (cb : Option (String → Bool → Bool))
    (frags : List String) (msg : String)
    (hrun : (streamCore cs cb frags [] 0).2.2 = false) :
    (stream_response_events cs cb frags (some msg)).getLast? = some (errorEvent msg)
    ∧ (errorEvent msg).error = some ("Error en la generación: " ++ msg)
    ∧ (errorEvent msg).finished = true
    ∧ ∀ ev ∈ (stream_response_events cs cb frags (some msg)).dropLast,
        ev.error = none ∧ ev.finished = false := by
  have hevs : stream_response_events cs cb frags (some msg)
      = (streamCore cs cb frags [] 0).1 ++ [errorEvent msg] := by
    simp [stream_response_events, hrun]
  rw [hevs]
  refine ⟨List.getLast?_concat _, rfl, rfl, ?_⟩
  intro ev hev
  rw [List.dropLast_concat] at hev
  have h := streamCore_events_flush cs cb frags [] 0 ev hev
  exact ⟨h.2, h.1⟩

/-- C5 evaluated on a concrete failing run. -/
theorem C5_error_event_witness :
    (stream_response_events 1 none ["a"] (some "boom")).getLast?
      = some (errorEvent "boom") :=
  (C5_error_event 1 none ["a"] "boom" (by decide)).1

/-! ### Claim C7 -/

/-- Callback structure of the loop: on an unbroken run the callback
accepted every flush event; on a broken run the refused event closes the
event list and the callback accepted every event before it. -/
theorem streamCore_callback_structure (cs : Nat) (cb : String → Bool → Bool) :
    ∀ (frags buf : List String) (wc : Nat),
      ((streamCore cs (some cb) frags buf wc).2.2 = false →
        ∀ ev ∈ (streamCore cs (some cb) frags buf wc).1, cb ev.chunk false = true)
      ∧ ((streamCore cs (some cb) frags buf wc).2.2 = true →
        ∃ l e, (streamCore cs (some cb) frags buf wc).1 = l ++ [e]
          ∧ (∀ ev ∈ l, cb ev.chunk false = true)
          ∧ cb e.chunk false = false) := by
  intro frags
  induction frags with
  | nil =>
    intro buf wc
    refine ⟨fun _ ev h => by simp [streamCore] at h, fun h => by simp [streamCore] at h⟩
  | cons c rest ih =>
    intro buf wc
    simp only [streamCore]
    by_cases hflush : cs ≤ wc + wordCount c
    · rw [if_pos hflush]
      by_cases hcb : cb (pyJoin (buf ++ [c])) false = true
      · rw [if_pos hcb]
        constructor
        · intro hns ev hev
          rcases List.mem_cons.mp hev with rfl | hev
          · exact hcb
          · exact (ih [] 0).1 hns ev hev
        · intro hs
          obtain ⟨l, e, hl, hall, he⟩ := (ih [] 0).2 hs
          refine ⟨{ chunk := pyJoin (buf ++ [c]), finished := false,
                    tokens := (pyJoin (buf ++ [c])).length / 4,
                    error := none } :: l, e, ?_, ?_, he⟩
          · simp [hl]
          · intro ev hev
            rcases List.mem_cons.mp hev with rfl | hev
            · exact hcb
            · exact hall ev hev
      · rw [if_neg hcb]
        constructor
        · intro hns
          simp at hns
        · intro _
          exact ⟨[], _, rfl, by simp, by simpa using hcb⟩
    · rw [if_neg hflush]
      exact ih _ _

/-- C7: once the callback returns false on a non-final chunk event, that
event is the last one the streamer yields: however the event sequence is
split as earlier events, the refused event and later events, the later
part is empty — in particular a callback refusing the second chunk rules
out a third. -/
theorem C7_callback_stop (cs : Nat) (cb : String → Bool → Bool)
    (frags : List String) (apiErr : Option String)
    (pre post : List ChunkEvent) (ev : ChunkEvent)
    (hsplit : stream_response_events cs (some cb) frags apiErr = pre ++ ev :: post)
    (hnf : ev.finished = false) (hcb : cb ev.chunk false = false) :
    post = [] := by
  have hmem : ev ∈ stream_response_events cs (some cb) frags apiErr := by
    rw [hsplit]
    exact List.mem_append.mpr (Or.inr (List.mem_cons_self ev post))
  by_cases hs : (streamCore cs (some cb) frags [] 0).2.2 = true
  · obtain ⟨l, e, hl, hall, he⟩ := (streamCore_callback_structure cs cb frags [] 0).2 hs
    have hevs : stream_response_events cs (some cb) frags apiErr = l ++ [e] := by
      simp only [stream_response_events, hs, if_true]
      exact hl
    rcases List.eq_nil_or_concat post with hpost | ⟨p2, last, hp2⟩
    · exact hpost
    · exfalso
      have h1 : pre ++ ev :: post = (pre ++ ev :: p2) ++ [last] := by
        simp [hp2]
      have h2 : l = pre ++ ev :: p2 := by
        have h3 : l ++ [e] = (pre ++ ev :: p2) ++ [last] :=
          (hevs.symm.trans hsplit).trans h1
        have h4 := congrArg List.dropLast h3
        rwa [List.dropLast_concat, List.dropLast_concat] at h4
      have : cb ev.chunk false = true :=
        hall ev (by rw [h2]; exact List.mem_append.mpr (Or.inr (List.mem_cons_self ev p2)))
      rw [hcb] at this
      exact Bool.false_ne_true this
  · exfalso
    have hns : (streamCore cs (some cb) frags [] 0).2.2 = false := by
      simpa using hs
    have hall := (streamCore_callback_structure cs cb frags [] 0).1 hns
    simp only [stream_response_events, hns, Bool.false_eq_true, if_false] at hmem
    cases apiErr with
    | some msg =>
      rcases List.mem_append.mp hmem with hev | hev
      · have := hall ev hev
        rw [hcb] at this
        exact Bool.false_ne_true this
      · have : ev = errorEvent msg := by simpa using hev
        rw [this] at hnf
        simp [errorEvent] at hnf
    | none =>
      by_cases hbuf : (streamCore cs (some cb) frags [] 0).2.1 = []
      · rw [if_pos hbuf] at hmem
        have := hall ev hmem
        rw [hcb] at this
        exact Bool.false_ne_true this
      · rw [if_neg hbuf] at hmem
        rcases List.mem_append.mp hmem with hev | hev
        · have := hall ev hev
          rw [hcb] at this
          exact Bool.false_ne_true this
        · have : ev = finalEvent (pyJoin (streamCore cs (some cb) frags [] 0).2.1) := by
            simpa using hev
          rw [this] at hnf
          simp [finalEvent] at hnf

/-- C7 evaluated on a concrete stream whose callback refuses the second
chunk: the second yielded event is the last. -/
theorem C7_callback_stop_witness :
    ([] : List ChunkEvent) = [] ∧
      stream_response_events 1 (some cbStopAfterA) ["a", "b", "c"] none =
        [{ chunk := "a", finished := false, tokens := 0, error := none },
         { chunk := "b", finished := false, tokens := 0, error := none }] :=
  ⟨C7_callback_stop 1 cbStopAfterA ["a", "b", "c"] none
      [{ chunk := "a", finished := false, tokens := 0, error := none }] []
      { chunk := "b", finished := false, tokens := 0, error := none }
      (by decide) (by decide) (by decide),
   by decide⟩

/-! ### Claim C3 -/

/-- C3 counterexample: the streamer yields one large non-final chunk,
the confirmation pause triggers, the user answers q.  The loop stops,
yet the returned metadata is not marked interrupted and the ask command
does persist the partial response — contradicting both halves of the
claim. -/
theorem C3_counterexample :
    (process_stream (stream_response_events 30 none [bigFrag] none) ["q"]).interrupted
        = false
    ∧ ask_persists (process_stream (stream_response_events 30 none [bigFrag] none) ["q"])
        = true
    ∧ (process_stream (stream_response_events 30 none [bigFrag] none) ["q"]).response
        = bigFrag := by
  refine ⟨rfl, rfl, by decide⟩

/-- C3 (amended): answering q at the confirmation pause stops the loop
and returns exactly the text accumulated so far, but the metadata of the
normal return path carries neither the interrupted nor the error key
(interrupted is set only by the KeyboardInterrupt handler), so the ask
command persists the partial response. -/
theorem C3_quit_amended (ev : ChunkEvent) (rest : List ChunkEvent)
    (answers : List String)
    (herr : ev.error = none) (hnf : ev.finished = false)
    (hbig : CONFIG_max_chunk_size * 3 < wordCount ev.chunk) :
    process_stream (ev :: rest) ("q" :: answers) =
      { response := ev.chunk, interrupted := false, errorMeta := none }
    ∧ ask_persists (process_stream (ev :: rest) ("q" :: answers)) = true := by
  have hcond : CONFIG_max_chunk_size * 3 < wordCount (pyJoin ([] ++ [ev.chunk]))
      ∧ CONFIG_confirm_continue = true ∧ ev.finished = false := by
    refine ⟨?_, rfl, hnf⟩
    simpa [pyJoin_singleton] using hbig
  have h1 : process_stream (ev :: rest) ("q" :: answers) =
      { response := ev.chunk, interrupted := false, errorMeta := none } := by
    unfold process_stream processLoop
    rw [herr]
    simp only [Option.isSome_none, Bool.false_eq_true, if_false]
    rw [if_pos hcond, if_pos (show pyLower (("q" :: answers).headD "") = "q" from rfl)]
    simp [pyJoin_singleton]
  exact ⟨h1, by rw [h1]; rfl⟩

/-- C3 amended claim evaluated on the concrete big chunk. -/
theorem C3_quit_amended_witness :
    process_stream [bigEv] ["q"] =
      { response := bigFrag, interrupted := false, errorMeta := none }
    ∧ ask_persists (process_stream [bigEv] ["q"]) = true :=
  C3_quit_amended bigEv [] [] rfl rfl (by decide)

/-! ### Claim C4 -/

/-- C4: windowing of stream_response.  (i) When no message has role
system the fixed system instruction is prepended.  (ii) When the
resulting list has more than 21 messages, the outgoing request is
exactly the system-role messages followed by the most recent 20
non-system ones (older non-system messages dropped).  (iii) In
particular 1 system message plus 25 non-system messages go out as
exactly 21 messages: the system message plus the last 20 non-system
ones. -/
theorem C4_windowing (messages : List Msg) :
    ((¬ ∃ m ∈ messages, m.role = "system") →
      withSystem messages = SYSTEM_PROMPT :: messages)
    ∧ (21 < (withSystem messages).length →
      prepareMessages messages =
        (withSystem messages).filter (fun m => m.role == "system")
          ++ ((withSystem messages).filter (fun m => m.role != "system")).drop
              (((withSystem messages).filter (fun m => m.role != "system")).length - 20))
    ∧ ((messages.filter (fun m => m.role == "system")).length = 1 →
      (messages.filter (fun m => m.role != "system")).length = 25 →
      (prepareMessages messages).length = 21
      ∧ prepareMessages messages =
          messages.filter (fun m => m.role == "system")
            ++ (messages.filter (fun m => m.role != "system")).drop 5) := by
  refine ⟨?_, ?_, ?_⟩
  · intro hno
    unfold withSystem
    rw [if_neg]
    intro h
    rcases List.any_eq_true.mp h with ⟨m, hm, hp⟩
    exact hno ⟨m, hm, by simpa using hp⟩
  · intro h
    simp only [prepareMessages]
    rw [if_pos h]
  · intro hsys hns
    have hne : messages.filter (fun m => m.role == "system") ≠ [] := by
      intro h
      rw [h] at hsys
      simp at hsys
    obtain ⟨m, hm⟩ := List.exists_mem_of_ne_nil _ hne
    have hmf := List.mem_filter.mp hm
    have hany : messages.any (fun m => m.role == "system") = true :=
      List.any_eq_true.mpr ⟨m, hmf.1, hmf.2⟩
    have hws : withSystem messages = messages := by
      unfold withSystem
      rw [if_pos hany]
    have hns2 : (messages.filter (fun x => !(x.role == "system"))).length = 25 := hns
    have htot := List.length_eq_length_filter_add
      (l := messages) (fun m => m.role == "system")
    have hgt : 21 < (withSystem messages).length := by
      rw [hws]
      omega
    have hpm : prepareMessages messages =
        messages.filter (fun m => m.role == "system")
          ++ (messages.filter (fun m => m.role != "system")).drop
              ((messages.filter (fun m => m.role != "system")).length - 20) := by
      simp only [prepareMessages]
      rw [if_pos hgt, hws]
    rw [hns] at hpm
    refine ⟨?_, hpm⟩
    rw [hpm, List.length_append, List.length_drop, hsys, hns]

/-- C4 windowing evaluated on 1 system plus 25 user messages. -/
theorem C4_windowing_witness :
    (prepareMessages msgs26).length = 21
    ∧ prepareMessages msgs26 =
        msgs26.filter (fun m => m.role == "system")
          ++ (msgs26.filter (fun m => m.role != "system")).drop 5 :=
  (C4_windowing msgs26).2.2 (by decide) (by decide)

/-! ### Claim C8 -/

/-- C8: add_message validation.  An empty role or content fails with the
ValueError kind — distinct from the storage kind — and leaves the table
unchanged; with both non-empty the call returns the stored record
carrying the assigned id and timestamp and appends exactly that
record. -/
theorem C8_add_message_validation (role content : String) (newId t : Nat)
    (db : List Row) :
    ((role = "" ∨ content = "") →
      (∃ m, (add_message role content newId t db).1 = .error (.valueError m))
      ∧ (add_message role content newId t db).2 = db)
    ∧ (role ≠ "" → content ≠ "" →
      ∃ rec, (add_message role content newId t db).1 = .ok rec
        ∧ (add_message role content newId t db).2 = db ++ [rec]
        ∧ rec.id = newId ∧ rec.created_at = t
        ∧ rec.role = pyLower role ∧ rec.content = content) := by
  constructor
  · rintro (h | h)
    · unfold add_message
      rw [if_pos h]
      exact ⟨⟨_, rfl⟩, rfl⟩
    · unfold add_message
      by_cases hr : role = ""
      · rw [if_pos hr]
        exact ⟨⟨_, rfl⟩, rfl⟩
      · rw [if_neg hr, if_pos h]
        exact ⟨⟨_, rfl⟩, rfl⟩
  · intro hr hc
    unfold add_message
    rw [if_neg hr, if_neg hc]
    exact ⟨_, rfl, rfl, rfl, rfl, rfl, rfl⟩

/-- C8 evaluated at an empty role and at a valid call. -/
theorem C8_add_message_validation_witness :
    (add_message "" "x" 1 0 []).2 = []
    ∧ ∃ rec, (add_message "USER" "x" 5 7 []).1 = .ok rec
        ∧ (add_message "USER" "x" 5 7 []).2 = [] ++ [rec]
        ∧ rec.id = 5 ∧ rec.created_at = 7
        ∧ rec.role = pyLower "USER" ∧ rec.content = "x" :=
  ⟨((C8_add_message_validation "" "x" 1 0 []).1 (Or.inl rfl)).2,
   (C8_add_message_validation "USER" "x" 5 7 []).2 (by decide) (by decide)⟩

/-! ### Claim C9 -/

/-- ASCII lowercasing is idempotent on characters. -/
theorem char_toLower_toLower (c : Char) : c.toLower.toLower = c.toLower := by
  unfold Char.toLower
  by_cases h : c.toNat ≥ 65 ∧ c.toNat ≤ 90
  · rw [if_pos h]
    have hv : (c.toNat + 32).isValidChar := Or.inl (by omega)
    have ht : (Char.ofNat (c.toNat + 32)).toNat = c.toNat + 32 := by
      simp only [Char.ofNat, dif_pos hv]
      rfl
    rw [if_neg]
    rw [ht]
    omega
  · rw [if_neg h, if_neg h]

/-- Python lowercasing is idempotent on strings. -/
theorem pyLower_idem (s : String) : pyLower (pyLower s) = pyLower s := by
  unfold pyLower
  simp only [List.map_map]
  congr 1
  exact List.map_congr_left (fun c _ => char_toLower_toLower c)

/-- The role stored by add_message in the success case. -/
theorem add_message_ok_role (role content : String) (newId t : Nat)
    (db : List Row) (rec : Row)
    (h : (add_message role content newId t db).1 = .ok rec) :
    rec.role = pyLower role ∧ (add_message role content newId t db).2 = db ++ [rec] := by
  unfold add_message at h ⊢
  by_cases hr : role = ""
  · rw [if_pos hr] at h
    simp at h
  · rw [if_neg hr] at h ⊢
    by_cases hc : content = ""
    · rw [if_pos hc] at h
      simp at h
    · rw [if_neg hc] at h ⊢
      have : rec = { id := newId, role := pyLower role, content := content,
                     created_at := t } := by
        simpa using h.symm
      subst this
      exact ⟨rfl, rfl⟩

/-- C9: lowercase-role invariant of the store.  add_message stores the
lowercased role — so the returned record can differ from the casing the
caller passed — and preserves the invariant; the separator row of
create_new_conversation and the empty table of clear_chat_history
preserve it as well; and the role filter of get_all_messages compares
stored roles against the lowercased argument, so every row of a
role-filtered page carries exactly the lowercased filter role. -/
theorem C9_roles_lowercase (db : List Row) (hdb : RolesLower db) :
    (∀ role content newId t,
      (∀ rec, (add_message role content newId t db).1 = .ok rec →
        rec.role = pyLower role)
      ∧ RolesLower (add_message role content newId t db).2)
    ∧ (∀ ts newId t, RolesLower (create_new_conversation ts newId t db))
    ∧ RolesLower (clear_chat_history db)
    ∧ (∀ limit offset search ro curr rows, ro ≠ "" →
      ∀ r ∈ (get_all_messages limit offset search (some ro) curr rows).1,
        r.role = pyLower ro) := by
  refine ⟨?_, ?_, ?_, ?_⟩
  · intro role content newId t
    constructor
    · intro rec h
      exact (add_message_ok_role role content newId t db rec h).1
    · intro r hr
      unfold add_message at hr
      by_cases hrr : role = ""
      · rw [if_pos hrr] at hr
        exact hdb r hr
      · rw [if_neg hrr] at hr
        by_cases hc : content = ""
        · rw [if_pos hc] at hr
          exact hdb r hr
        · rw [if_neg hc] at hr
          rcases List.mem_append.mp hr with hr | hr
          · exact hdb r hr
          · have : r = { id := newId, role := pyLower role, content := content,
                         created_at := t } := by simpa using hr
            subst this
            exact pyLower_idem role
  · intro ts newId t r hr
    unfold create_new_conversation at hr
    rcases List.mem_append.mp hr with hr | hr
    · exact hdb r hr
    · have : r = { id := newId, role := "system",
                   content := "--- NUEVA CONVERSACIÓN INICIADA: " ++ ts ++ " ---",
                   created_at := t } := by simpa using hr
      subst this
      show pyLower "system" = "system"
      decide
  · intro r hr
    simp [clear_chat_history] at hr
  · intro limit offset search ro curr rows hro r hr
    have hq3 : r ∈ filteredMessages search (some ro) curr rows := by
      have h1 : r ∈ (sortByTimeDesc (filteredMessages search (some ro) curr rows)).drop
          offset := List.mem_of_mem_take hr
      have h2 : r ∈ sortByTimeDesc (filteredMessages search (some ro) curr rows) :=
        List.mem_of_mem_drop h1
      exact (List.perm_insertionSort timeDesc _).mem_iff.mp h2
    simp only [filteredMessages, roleScope] at hq3
    rw [if_pos hro] at hq3
    have := (List.mem_filter.mp hq3).2
    simpa using this

/-- C9 evaluated on a concrete add_message call with an uppercase
role. -/
theorem C9_roles_lowercase_witness :
    RolesLower (add_message "USER" "x" 5 7 []).2 :=
  ((C9_roles_lowercase [] (fun r hr => by simp at hr)).1 "USER" "x" 5 7).2

/-! ### Claim C10 -/

/-- C10: limit defaulting in get_all_messages.  A missing or
non-positive limit is replaced by the page size 100 — the page is the
first 100 entries of the ordered, offset result, hence never longer than
100 — while a positive limit bounds the page by its value. -/
theorem C10_default_limit (offset : Nat) (search ro : Option String)
    (curr : Bool) (rows : List Row) :
    (∀ limit : Option Int, limit = none ∨ (∃ l, limit = some l ∧ l ≤ 0) →
      (get_all_messages limit offset search ro curr rows).1 =
        ((sortByTimeDesc (filteredMessages search ro curr rows)).drop offset).take 100
      ∧ (get_all_messages limit offset search ro curr rows).1.length ≤ 100)
    ∧ (∀ l : Int, 0 < l →
      (get_all_messages (some l) offset search ro curr rows).1.length ≤ l.toNat) := by
  constructor
  · rintro limit (rfl | ⟨l, rfl, hl⟩)
    · exact ⟨rfl, List.length_take_le _ _⟩
    · have hneg : ¬ (0 < l) := by omega
      have he : effLimit (some l) = 100 := by
        simp only [effLimit]
        rw [if_neg hneg]
      have h1 : (get_all_messages (some l) offset search ro curr rows).1 =
          ((sortByTimeDesc (filteredMessages search ro curr rows)).drop offset).take
            100 := by
        show ((sortByTimeDesc (filteredMessages search ro curr rows)).drop
            offset).take (effLimit (some l)) = _
        rw [he]
      exact ⟨h1, h1 ▸ List.length_take_le _ _⟩
  · intro l hl
    have he : effLimit (some l) = l.toNat := by
      simp only [effLimit]
      rw [if_pos hl]
    have h1 : (get_all_messages (some l) offset search ro curr rows).1 =
        ((sortByTimeDesc (filteredMessages search ro curr rows)).drop offset).take
          l.toNat := by
      show ((sortByTimeDesc (filteredMessages search ro curr rows)).drop
          offset).take (effLimit (some l)) = _
      rw [he]
    rw [h1]
    exact List.length_take_le _ _

/-- C10 evaluated at a negative and at a positive limit. -/
theorem C10_default_limit_witness :
    (get_all_messages (some (-5)) 0 none none true [rowBefore]).1.length ≤ 100
    ∧ (get_all_messages (some 1) 0 none none true [rowBefore]).1.length
        ≤ (1 : Int).toNat :=
  ⟨((C10_default_limit 0 none none true [rowBefore]).1 (some (-5))
      (Or.inr ⟨-5, rfl, by decide⟩)).2,
   (C10_default_limit 0 none none true [rowBefore]).2 1 (by decide)⟩

/-! ### Claim C6 -/

/-- Descending-time sort puts a strictly latest element first. -/
theorem head_sortByTimeDesc (l : List Row) (x : Row) (hx : x ∈ l)
    (hmax : ∀ y ∈ l, y ≠ x → y.created_at < x.created_at) :
    (sortByTimeDesc l).head? = some x := by
  have hperm := List.perm_insertionSort timeDesc l
  have hsorted := List.sorted_insertionSort timeDesc l
  unfold sortByTimeDesc
  rcases hsort : List.insertionSort timeDesc l with _ | ⟨h, t⟩
  · exfalso
    have hxs : x ∈ List.insertionSort timeDesc l := hperm.mem_iff.mpr hx
    rw [hsort] at hxs
    simp at hxs
  · have hh : h ∈ l := hperm.mem_iff.mp (by rw [hsort]; exact List.mem_cons_self h t)
    have hxs : x ∈ h :: t := by
      rw [← hsort]
      exact hperm.mem_iff.mpr hx
    rcases List.mem_cons.mp hxs with rfl | hxt
    · rfl
    · by_cases hhx : h = x
      · rw [hhx]
        rfl
      · exfalso
        have h1 : timeDesc h x := by
          rw [hsort] at hsorted
          exact List.rel_of_sorted_cons hsorted x hxt
        have h2 : h.created_at < x.created_at := hmax h hh hhx
        exact absurd h1 (by unfold timeDesc; omega)

/-- C6 counterexample: one message before the separator, the separator,
one message after.  The current-conversation page is the later message
followed by the separator row itself: the separator — which was not
appended after the separator — is returned, because get_all_messages
filters with id greater than or equal to the separator id. -/
theorem C6_counterexample :
    (get_all_messages none 0 none none true [rowBefore, rowSep, rowAfter]).1
        = [rowAfter, rowSep]
    ∧ rowSep ∈ (get_all_messages none 0 none none true
        [rowBefore, rowSep, rowAfter]).1 := by
  refine ⟨by decide, by decide⟩

/-- C6 (amended): after create_new_conversation appends a separator, a
current-conversation query keeps exactly the separator and the messages
appended after it (ids at least the separator id); every message
appended before the separator is excluded from the page; the page is
ordered by timestamp descending; and the returned total counts the
matching rows before pagination.  Timestamps and ids are assumed
strictly increasing in append order, and the rows appended after the
separator are not themselves separators. -/
theorem C6_current_conversation_amended (old fresh : List Row) (sep : Row)
    (hsep : isSeparator sep = true) (hid0 : 0 < sep.id)
    (hids : (old ++ sep :: fresh).Pairwise (fun a b => a.id < b.id))
    (hts : (old ++ sep :: fresh).Pairwise (fun a b => a.created_at < b.created_at))
    (hfresh : ∀ r ∈ fresh, isSeparator r = false) :
    filteredMessages none none true (old ++ sep :: fresh) = sep :: fresh
    ∧ (get_all_messages none 0 none none true (old ++ sep :: fresh)).2
        = fresh.length + 1
    ∧ (∀ r ∈ (get_all_messages none 0 none none true (old ++ sep :: fresh)).1,
        sep.id ≤ r.id)
    ∧ (∀ r ∈ old, r ∉ (get_all_messages none 0 none none true (old ++ sep :: fresh)).1)
    ∧ (get_all_messages none 0 none none true (old ++ sep :: fresh)).1.Pairwise
        timeDesc := by
  have hidsParts := List.pairwise_append.mp hids
  have htsParts := List.pairwise_append.mp hts
  have hOldId : ∀ a ∈ old, a.id < sep.id :=
    fun a ha => hidsParts.2.2 a ha sep (List.mem_cons_self sep fresh)
  have hFreshId : ∀ b ∈ fresh, sep.id < b.id :=
    fun b hb => (List.pairwise_cons.mp hidsParts.2.1).1 b hb
  have hOldTime : ∀ a ∈ old, a.created_at < sep.created_at :=
    fun a ha => htsParts.2.2 a ha sep (List.mem_cons_self sep fresh)
  have hfil : (old ++ sep :: fresh).filter isSeparator
      = old.filter isSeparator ++ [sep] := by
    rw [List.filter_append, List.filter_cons, if_pos hsep]
    have : fresh.filter isSeparator = [] :=
      List.filter_eq_nil_iff.mpr (fun r hr => by simp [hfresh r hr])
    rw [this]
  have hlast : lastSeparatorId (old ++ sep :: fresh) = some sep.id := by
    unfold lastSeparatorId
    rw [hfil, head_sortByTimeDesc _ sep
      (List.mem_append.mpr (Or.inr (List.mem_cons_self sep [])))
      (fun y hy hne => ?_)]
    · rfl
    · rcases List.mem_append.mp hy with hy | hy
      · exact hOldTime y (List.mem_of_mem_filter hy)
      · exact absurd (by simpa using hy) hne
  have hscope : sepScope true (old ++ sep :: fresh) = sep :: fresh := by
    simp only [sepScope, if_true, hlast]
    rw [if_pos (by omega : sep.id ≠ 0)]
    rw [List.filter_append, List.filter_cons]
    have h1 : old.filter (fun r => decide (sep.id ≤ r.id)) = [] :=
      List.filter_eq_nil_iff.mpr (fun r hr => by
        have := hOldId r hr
        simp
        omega)
    have h2 : fresh.filter (fun r => decide (sep.id ≤ r.id)) = fresh :=
      List.filter_eq_self.mpr (fun r hr => by
        have := hFreshId r hr
        simp
        omega)
    rw [h1, h2, if_pos (by simp)]
    rfl
  have hfm : filteredMessages none none true (old ++ sep :: fresh) = sep :: fresh := by
    unfold filteredMessages searchScope roleScope
    exact hscope
  have hpage : (get_all_messages none 0 none none true (old ++ sep :: fresh)).1
      = (sortByTimeDesc (sep :: fresh)).take 100 := by
    show ((sortByTimeDesc (filteredMessages none none true
        (old ++ sep :: fresh))).drop 0).take (effLimit none) = _
    rw [hfm, List.drop_zero]
    rfl
  have hmemPage : ∀ r ∈ (get_all_messages none 0 none none true
      (old ++ sep :: fresh)).1, r ∈ sep :: fresh := by
    intro r hr
    rw [hpage] at hr
    have h1 : r ∈ sortByTimeDesc (sep :: fresh) := List.mem_of_mem_take hr
    exact (List.perm_insertionSort timeDesc _).mem_iff.mp h1
  refine ⟨hfm, ?_, ?_, ?_, ?_⟩
  · show (filteredMessages none none true (old ++ sep :: fresh)).length = _
    rw [hfm]
    simp
  · intro r hr
    rcases List.mem_cons.mp (hmemPage r hr) with rfl | hrf
    · exact Nat.le_refl _
    · exact Nat.le_of_lt (hFreshId r hrf)
  · intro r hrold hrpage
    rcases List.mem_cons.mp (hmemPage r hrpage) with rfl | hrf
    · exact absurd (hOldId r hrold) (by omega)
    · have := hOldId r hrold
      have := hFreshId r hrf
      omega
  · rw [hpage]
    exact (List.sorted_insertionSort timeDesc (sep :: fresh)).sublist
      (List.take_sublist 100 _)

/-- C6 amended claim evaluated on the concrete three-row table. -/
theorem C6_current_conversation_amended_witness :
    filteredMessages none none true [rowBefore, rowSep, rowAfter]
        = [rowSep, rowAfter]
    ∧ (get_all_messages none 0 none none true [rowBefore, rowSep, rowAfter]).2 = 2 := by
  have h := C6_current_conversation_amended [rowBefore] [rowAfter] rowSep
    (by decide) (by decide) (by decide) (by decide) (by decide)
  exact ⟨h.1, h.2.1⟩

end ChatApp
